import Mathlib

/-!
Verification of the `AsioProcessSupervisor` core
(`src/cpp/core/system/PosixProcess.cpp`).

The supervisor owns a set `children_` of handles to running child
processes, guarded by `mutex_`, plus a condition variable
`noChildrenSignal_`.  We embed it in two layers:

* a sequential layer: each straight-line member function
  (`runChild`, `runProgram`, `runCommand`, `hasRunningChildren`,
  `terminateAll`, `wrapExitCallback`) becomes a pure function from the
  supervisor state to a result, the new state, and a trace of the
  observable atomic events it performs, in program order;

* an interleaving machine for the blocking `wait` member: threads are
  lists of atomic mutex-protected instructions, waiters model the
  condition-variable protocol (call, block, wake after notify,
  reacquire, timed timeout), and a scheduler label picks which thread
  performs the next atomic step.

Handles are `Nat` identities (the C++ set is keyed by `shared_ptr`
identity).  The caller-supplied callbacks are opaque: a callback slot
is an `Option Nat` identity, and the state effect of running the
caller's `onExit` body (which may re-enter the supervisor) is an
arbitrary function parameter.
-/

namespace AsioSup

/-- An error value, as returned by `run` / `terminate` of the child
process collaborator (`core::Error`). -/
structure Err where
  code : Nat
deriving DecidableEq, Repr

/-- The three optional callback slots of `ProcessCallbacks`; each slot
holds the identity of the caller-supplied function, or `none`. -/
structure ProcessCallbacks where
  onStdout : Option Nat
  onStderr : Option Nat
  onExit : Option Nat
deriving DecidableEq, Repr

/-- What is launched: an executable with arguments (`runProgram`) or a
shell command (`runCommand`).  The supervisor passes these through
opaquely, so they are plain identities. -/
inductive ChildSpec where
  | program (executable : Nat) (args : List Nat)
  | command (cmd : Nat)
deriving DecidableEq, Repr

/-- Insertion into the `std::set` of children: no effect if the handle
is already present. -/
def insertChild (cs : List Nat) (hnd : Nat) : List Nat :=
  if hnd ∈ cs then cs else cs ++ [hnd]

/-- Erasure from the `std::set` of children. -/
def eraseChild (cs : List Nat) (hnd : Nat) : List Nat :=
  cs.filter (fun x => x ≠ hnd)

/-- The supervisor's mutable state: the `children_` collection.  The
mutex and the condition variable are modelled by the machine layer. -/
structure Impl where
  children : List Nat
deriving DecidableEq, Repr

/-- Observable atomic events of the sequential layer, in program
order. -/
inductive Event where
  | childRun (spec : ChildSpec) (cbs : ProcessCallbacks)
  | insert (hnd : Nat)
  | eraseAttempt (resolved : Option Nat)
  | invokeOnExit (cb : Nat) (exitCode : Int)
  | emptinessCheck (empty : Bool)
  | notifyAll
  | snapshotTaken (hs : List Nat)
  | terminate (hnd : Nat) (failed : Bool)
  | logError (e : Err)
deriving DecidableEq, Repr

/-- `Impl::runChild`: first `pChild->run(callbacks)`; on error, return
it without touching `children_`; on success, insert the handle under
the lock and return success.  `runResult` is the outcome of the
collaborator's `run` call. -/
def runChild (s : Impl) (spec : ChildSpec) (hnd : Nat) (cbs : ProcessCallbacks)
    (runResult : Option Err) : Option Err × Impl × List Event :=
  match runResult with
  | some e => (some e, s, [Event.childRun spec cbs])
  | none => (none, ⟨insertChild s.children hnd⟩,
      [Event.childRun spec cbs, Event.insert hnd])

/-- The callback set the supervisor hands to the child: a copy of the
caller's callbacks whose `onExit` slot is replaced by the bound
reaping wrapper (identity `wrappedId`). -/
def wrapCallbacks (callbacks : ProcessCallbacks) (wrappedId : Nat) : ProcessCallbacks :=
  { callbacks with onExit := some wrappedId }

/-- `AsioProcessSupervisor::runProgram`: construct the child, wrap the
exit callback, and run it via `runChild`. -/
def runProgram (s : Impl) (executable : Nat) (args : List Nat)
    (callbacks : ProcessCallbacks) (hnd : Nat) (wrappedId : Nat)
    (runResult : Option Err) : Option Err × Impl × List Event :=
  runChild s (ChildSpec.program executable args) hnd (wrapCallbacks callbacks wrappedId) runResult

/-- `AsioProcessSupervisor::runCommand`: same as `runProgram` but the
child is given a whole shell command. -/
def runCommand (s : Impl) (cmd : Nat)
    (callbacks : ProcessCallbacks) (hnd : Nat) (wrappedId : Nat)
    (runResult : Option Err) : Option Err × Impl × List Event :=
  runChild s (ChildSpec.command cmd) hnd (wrapCallbacks callbacks wrappedId) runResult

/-- `Impl::hasRunningChildren`: under the lock, report whether
`children_` is non-empty.  No state change, no events. -/
def hasRunningChildren (s : Impl) : Bool × List Event :=
  (decide (s.children ≠ []), [])

/-- The per-child tail of the `terminateAll` loop body: a `terminate`
call on the snapshotted handle, followed by `LOG_ERROR` when it
failed.  `termResult` gives each child's `terminate` outcome. -/
def termEvents (hs : List Nat) (termResult : Nat → Option Err) : List Event :=
  match hs with
  | [] => []
  | hnd :: rest =>
    Event.terminate hnd (termResult hnd).isSome ::
      ((match termResult hnd with
        | some e => [Event.logError e]
        | none => []) ++ termEvents rest termResult)

/-- `Impl::terminateAll`: copy `children_` under the lock, then call
`terminate` on every handle of the copy outside the lock, logging (not
returning) any per-child failure.  Returns `void`, so the result is
just the unchanged state and the trace. -/
def terminateAll (s : Impl) (termResult : Nat → Option Err) : Impl × List Event :=
  (s, Event.snapshotTaken s.children :: termEvents s.children termResult)

/-- The state after the wrapper's first locked section: erase the
handle when the weak pointer resolved (`alive`), otherwise leave
`children_` untouched. -/
def reapEraseState (s : Impl) (hnd : Nat) (alive : Bool) : Impl :=
  if alive then ⟨eraseChild s.children hnd⟩ else s

/-- The state at the wrapper's final emptiness check: after the erase
step and after the caller's `onExit` body (an opaque state transformer
`eff`, run only when an `onExit` callback is present) has returned. -/
def postCallbackState (s : Impl) (hnd : Nat) (alive : Bool)
    (onExit : Option Nat) (eff : Impl → Impl) : Impl :=
  match onExit with
  | some _ => eff (reapEraseState s hnd alive)
  | none => reapEraseState s hnd alive

/-- `Impl::wrapExitCallback`: under the lock, upgrade the weak pointer
and erase the child when the upgrade succeeded; outside the lock,
invoke the caller's `onExit` when present; finally, under the lock
again, check `children_` for emptiness and `notify_all` when empty.
`alive` is whether `pChild.lock()` yielded a non-null pointer; `eff`
is the (possibly re-entrant) state effect of the caller's callback
body. -/
def wrapExitCallback (s : Impl) (hnd : Nat) (alive : Bool) (exitCode : Int)
    (onExit : Option Nat) (eff : Impl → Impl) : Impl × List Event :=
  let s2 := postCallbackState s hnd alive onExit eff
  (s2,
    Event.eraseAttempt (if alive then some hnd else none) ::
      ((match onExit with
        | some cb => [Event.invokeOnExit cb exitCode]
        | none => []) ++
       (Event.emptinessCheck (decide (s2.children = [])) ::
        (if s2.children = [] then [Event.notifyAll] else []))))

/-! ## The interleaving machine for `wait`

Concurrent access to the supervisor: several dispatcher or caller
threads perform atomic mutex sections, while waiter threads execute
`Impl::wait`.  Each `SInstr` is one mutex-protected section. -/

/-- One atomic instruction of a non-waiter thread: `runChild`'s locked
insert, the wrapper's locked erase (`alive` = weak upgrade result),
the wrapper's unlocked user-callback invocation, and the wrapper's
final locked check-and-notify. -/
inductive SInstr where
  | insert (hnd : Nat)
  | erase (hnd : Nat) (alive : Bool)
  | callback
  | checkNotify
deriving DecidableEq, Repr

/-- Where a waiter thread is inside `Impl::wait`: about to take the
lock and test emptiness; blocked on `noChildrenSignal_`; notified and
waiting to reacquire the lock; or returned with a result. -/
inductive WStatus where
  | ready
  | blocked
  | woken
  | done (result : Bool)
deriving DecidableEq, Repr

/-- A waiter thread: whether its `maxWait` was a real duration
(`timed`), and its current position inside `wait`. -/
structure Waiter where
  timed : Bool
  status : WStatus
deriving DecidableEq, Repr

/-- A machine configuration: the shared `children_` collection, the
non-waiter threads (each a list of remaining atomic instructions), and
the waiter threads. -/
structure Machine where
  children : List Nat
  threads : List (List SInstr)
  waiters : List Waiter
deriving DecidableEq, Repr

/-- A scheduling choice: which thread performs the next atomic step. -/
inductive Label where
  | runThread (i : Nat)
  | waiterCall (i : Nat)
  | waiterWake (i : Nat)
  | waiterTimeout (i : Nat)
deriving DecidableEq, Repr

/-- `notify_all`: every waiter blocked on the condition variable
becomes runnable (pending reacquisition of the mutex). -/
def wakeAll (ws : List Waiter) : List Waiter :=
  ws.map (fun w => if w.status = WStatus.blocked then { w with status := WStatus.woken } else w)

/-- One atomic step of the machine under scheduling choice `lab`;
`none` when that choice is not enabled. -/
def step (m : Machine) (lab : Label) : Option Machine :=
  match lab with
  | Label.runThread i =>
    match m.threads.get? i with
    | some (SInstr.insert hnd :: rest) =>
      some { m with children := insertChild m.children hnd, threads := m.threads.set i rest }
    | some (SInstr.erase hnd alive :: rest) =>
      some { m with
        children := if alive then eraseChild m.children hnd else m.children
        threads := m.threads.set i rest }
    | some (SInstr.callback :: rest) =>
      some { m with threads := m.threads.set i rest }
    | some (SInstr.checkNotify :: rest) =>
      some { m with
        threads := m.threads.set i rest
        waiters := if m.children = [] then wakeAll m.waiters else m.waiters }
    | _ => none
  | Label.waiterCall i =>
    match m.waiters.get? i with
    | some w =>
      if w.status = WStatus.ready then
        if m.children = [] then
          some { m with waiters := m.waiters.set i { w with status := WStatus.done true } }
        else
          some { m with waiters := m.waiters.set i { w with status := WStatus.blocked } }
      else none
    | none => none
  | Label.waiterWake i =>
    match m.waiters.get? i with
    | some w =>
      if w.status = WStatus.woken then
        some { m with waiters :=
          m.waiters.set i { w with status := WStatus.done (decide (m.children = [])) } }
      else none
    | none => none
  | Label.waiterTimeout i =>
    match m.waiters.get? i with
    | some w =>
      if w.timed = true ∧ w.status = WStatus.blocked then
        some { m with waiters := m.waiters.set i { w with status := WStatus.done false } }
      else none
    | none => none

/-- Run the machine under an explicit schedule. -/
def runSched (m : Machine) (sched : List Label) : Option Machine :=
  match sched with
  | [] => some m
  | lab :: rest =>
    match step m lab with
    | some m2 => runSched m2 rest
    | none => none

/-- A concrete scenario: child 1 is launched (thread 0 is the tail of
its `runChild`), the dispatcher is about to reap child 1 (thread 1 is
its `wrapExitCallback`), another caller launches child 2 (thread 2),
and one thread calls `wait` with no maximum duration. -/
def cexMachine : Machine :=
  { children := []
    threads := [[SInstr.insert 1],
                [SInstr.erase 1 true, SInstr.callback, SInstr.checkNotify],
                [SInstr.insert 2]]
    waiters := [{ timed := false, status := WStatus.ready }] }

/-- A schedule for `cexMachine`: insert child 1; the waiter takes the
lock, finds `children_` non-empty and blocks; the reaper erases child
1, runs the caller's callback, finds `children_` empty and notifies;
child 2 is inserted before the waiter reacquires the lock; the waiter
wakes and evaluates `children_.empty()`. -/
def cexSched : List Label :=
  [Label.runThread 0, Label.waiterCall 0, Label.runThread 1, Label.runThread 1,
   Label.runThread 1, Label.runThread 2, Label.waiterWake 0]

end AsioSup

namespace AsioSup

/-! ## Helper lemmas -/

lemma terminate_mem_termEvents (hs : List Nat) (f : Nat → Option Err) (hnd : Nat)
    (hm : hnd ∈ hs) : Event.terminate hnd (f hnd).isSome ∈ termEvents hs f := by
  induction hs with
  | nil => cases hm
  | cons a t ih =>
    rcases List.mem_cons.mp hm with rfl | hm2
    · exact List.mem_cons_self _ _
    · exact List.mem_cons_of_mem _ (List.mem_append_right _ (ih hm2))

lemma logError_mem_termEvents (hs : List Nat) (f : Nat → Option Err) (hnd : Nat) (e : Err)
    (hm : hnd ∈ hs) (he : f hnd = some e) : Event.logError e ∈ termEvents hs f := by
  induction hs with
  | nil => cases hm
  | cons a t ih =>
    rcases List.mem_cons.mp hm with rfl | hm2
    · simp [termEvents, he]
    · exact List.mem_cons_of_mem _ (List.mem_append_right _ (ih hm2))

lemma notifyAll_not_mem_termEvents (hs : List Nat) (f : Nat → Option Err) :
    Event.notifyAll ∉ termEvents hs f := by
  induction hs with
  | nil => simp [termEvents]
  | cons a t ih =>
    cases hf : f a <;> simp [termEvents, hf, ih]

end AsioSup

namespace AsioSup

/-- Claim C4: for every launch (`runProgram` or `runCommand`), if
starting the child fails then the launch call returns that failure and
`children_` is left unchanged with no insert event; on success the
trace shows the insert strictly after the successful `run`, and the
handle is added to the collection. -/
theorem launch_failure_no_insert
    (s : Impl) (executable cmd : Nat) (args : List Nat)
    (callbacks : ProcessCallbacks) (hnd wrappedId : Nat) (e : Err) :
    runProgram s executable args callbacks hnd wrappedId (some e) =
      (some e, s, [Event.childRun (ChildSpec.program executable args)
        (wrapCallbacks callbacks wrappedId)]) ∧
    runCommand s cmd callbacks hnd wrappedId (some e) =
      (some e, s, [Event.childRun (ChildSpec.command cmd)
        (wrapCallbacks callbacks wrappedId)]) ∧
    Event.insert hnd ∉ (runProgram s executable args callbacks hnd wrappedId (some e)).2.2 ∧
    Event.insert hnd ∉ (runCommand s cmd callbacks hnd wrappedId (some e)).2.2 ∧
    (runProgram s executable args callbacks hnd wrappedId none).2.2 =
      [Event.childRun (ChildSpec.program executable args) (wrapCallbacks callbacks wrappedId),
       Event.insert hnd] ∧
    (runProgram s executable args callbacks hnd wrappedId none).2.1 =
      ⟨insertChild s.children hnd⟩ ∧
    (runCommand s cmd callbacks hnd wrappedId none).2.2 =
      [Event.childRun (ChildSpec.command cmd) (wrapCallbacks callbacks wrappedId),
       Event.insert hnd] ∧
    (runCommand s cmd callbacks hnd wrappedId none).2.1 =
      ⟨insertChild s.children hnd⟩ := by
  refine ⟨rfl, rfl, ?_, ?_, rfl, rfl, rfl, rfl⟩ <;>
    simp [runProgram, runCommand, runChild]

/-- Claim C8: the callback set passed to the child by `runProgram` and
by `runCommand` carries the caller's `onStdout` and `onStderr` slots
unchanged and differs only in the `onExit` slot, which holds the bound
reaping wrapper. -/
theorem callbacks_passthrough
    (s : Impl) (executable cmd : Nat) (args : List Nat) (callbacks : ProcessCallbacks)
    (hnd wrappedId : Nat) (runResult : Option Err) :
    (∃ cbs : ProcessCallbacks,
      (runProgram s executable args callbacks hnd wrappedId runResult).2.2.head? =
        some (Event.childRun (ChildSpec.program executable args) cbs) ∧
      cbs.onStdout = callbacks.onStdout ∧ cbs.onStderr = callbacks.onStderr ∧
      cbs.onExit = some wrappedId) ∧
    (∃ cbs : ProcessCallbacks,
      (runCommand s cmd callbacks hnd wrappedId runResult).2.2.head? =
        some (Event.childRun (ChildSpec.command cmd) cbs) ∧
      cbs.onStdout = callbacks.onStdout ∧ cbs.onStderr = callbacks.onStderr ∧
      cbs.onExit = some wrappedId) := by
  constructor <;>
  · refine ⟨wrapCallbacks callbacks wrappedId, ?_, rfl, rfl, rfl⟩
    cases runResult <;> rfl

/-- Claim C6: `terminateAll` first takes a snapshot copy of
`children_` under the lock, then invokes `terminate` on every
snapshotted handle outside the lock; a failing `terminate` on one
child is logged and every other child of the snapshot still receives
its `terminate` call, for every possible pattern of per-child
outcomes; no per-child failure is returned (the function is `void`,
its result carries no error). -/
theorem terminateAll_best_effort (s : Impl) (termResult : Nat → Option Err) :
    (terminateAll s termResult).2.head? = some (Event.snapshotTaken s.children) ∧
    (∀ hnd, hnd ∈ s.children →
      Event.terminate hnd (termResult hnd).isSome ∈ (terminateAll s termResult).2) ∧
    (∀ hnd e, hnd ∈ s.children → termResult hnd = some e →
      Event.logError e ∈ (terminateAll s termResult).2) := by
  refine ⟨rfl, ?_, ?_⟩
  · intro hnd hm
    exact List.mem_cons_of_mem _ (terminate_mem_termEvents _ _ _ hm)
  · intro hnd e hm he
    exact List.mem_cons_of_mem _ (logError_mem_termEvents _ _ _ _ hm he)

/-- Claim C10: `terminateAll` never mutates `children_` — every
handle registered before the call is still registered after it
returns — and it performs no notification of the quiescence condition
variable. -/
theorem terminateAll_frame (s : Impl) (termResult : Nat → Option Err) :
    (terminateAll s termResult).1 = s ∧
    (∀ hnd, hnd ∈ s.children ↔ hnd ∈ (terminateAll s termResult).1.children) ∧
    Event.notifyAll ∉ (terminateAll s termResult).2 := by
  refine ⟨rfl, fun hnd => Iff.rfl, ?_⟩
  intro hmem
  rcases List.mem_cons.mp hmem with hc | hc
  · exact Event.noConfusion hc
  · exact notifyAll_not_mem_termEvents _ _ hc

/-- Claim C9: in the reaping wrapper, if the weak pointer upgrade
yields null (`alive = false`) the erase step is a no-op leaving
`children_` unchanged, and the wrapper still invokes the caller's
`onExit`, still performs the emptiness check on the post-callback
state, and notifies exactly when that state is empty. -/
theorem reap_dead_weak_noop (s : Impl) (hnd : Nat) (exitCode : Int) (cb : Nat)
    (eff : Impl → Impl) :
    reapEraseState s hnd false = s ∧
    (wrapExitCallback s hnd false exitCode (some cb) eff).1 = eff s ∧
    (wrapExitCallback s hnd false exitCode (some cb) eff).2.get? 0 =
      some (Event.eraseAttempt none) ∧
    Event.invokeOnExit cb exitCode ∈ (wrapExitCallback s hnd false exitCode (some cb) eff).2 ∧
    Event.emptinessCheck (decide ((eff s).children = [])) ∈
      (wrapExitCallback s hnd false exitCode (some cb) eff).2 ∧
    (Event.notifyAll ∈ (wrapExitCallback s hnd false exitCode (some cb) eff).2 ↔
      (eff s).children = []) := by
  refine ⟨rfl, rfl, rfl, ?_, ?_, ?_⟩
  · simp [wrapExitCallback]
  · simp [wrapExitCallback, postCallbackState, reapEraseState]
  · by_cases hc : (eff s).children = [] <;>
      simp [wrapExitCallback, postCallbackState, reapEraseState, hc]

/-- Claim C1: when the exit notification of a successfully launched
child is processed (its weak pointer upgrades, `alive = true`), the
erase of its handle (trace index 0) precedes the invocation of the
caller's `onExit` (trace index 1), the handle is indeed gone from the
collection the callback sees, and any `notify_all` of the quiescence
condition variable occurs strictly after the callback event. -/
theorem reap_order_erase_callback_notify (s : Impl) (hnd : Nat) (exitCode : Int)
    (cb : Nat) (eff : Impl → Impl) :
    (wrapExitCallback s hnd true exitCode (some cb) eff).2.get? 0 =
      some (Event.eraseAttempt (some hnd)) ∧
    (wrapExitCallback s hnd true exitCode (some cb) eff).2.get? 1 =
      some (Event.invokeOnExit cb exitCode) ∧
    (∀ k, (wrapExitCallback s hnd true exitCode (some cb) eff).2.get? k =
      some Event.notifyAll → 1 < k) ∧
    hnd ∉ (reapEraseState s hnd true).children := by
  refine ⟨rfl, rfl, ?_, ?_⟩
  · intro k hk
    match k with
    | 0 => exact absurd hk (by simp [wrapExitCallback])
    | 1 => exact absurd hk (by simp [wrapExitCallback])
    | 2 => exact absurd hk (by simp [wrapExitCallback])
    | (n + 3) => omega
  · simp [reapEraseState, eraseChild]

end AsioSup

namespace AsioSup

lemma length_of_get? {ws : List Waiter} {i : Nat} {w : Waiter}
    (hget : ws.get? i = some w) : i < ws.length := by
  rcases List.get?_eq_some.mp hget with ⟨hlt, -⟩
  exact hlt

/-- Exhaustive effect of one machine step on a blocked waiter: it is
untouched, or it is woken by a `checkNotify` step taken when
`children_` is empty, or (timed waiters only) its timeout fires and it
finishes with `false`. -/
lemma step_blocked_cases (m : Machine) (lab : Label) (m2 : Machine) (i : Nat) (w : Waiter)
    (hstep : step m lab = some m2) (hget : m.waiters.get? i = some w)
    (hb : w.status = WStatus.blocked) :
    m2.waiters.get? i = some w ∨
    (m.children = [] ∧ m2.children = m.children ∧
      m2.waiters.get? i = some { w with status := WStatus.woken } ∧
      ∃ j rest, lab = Label.runThread j ∧
        m.threads.get? j = some (SInstr.checkNotify :: rest)) ∨
    (w.timed = true ∧ lab = Label.waiterTimeout i ∧
      m2.waiters.get? i = some { w with status := WStatus.done false }) := by
  cases lab with
  | runThread j =>
    simp only [step] at hstep
    rcases hth : m.threads.get? j with _ | prog <;> rw [hth] at hstep
    · exact absurd hstep (by simp)
    rcases prog with _ | ⟨instr, rest⟩
    · exact absurd hstep (by simp)
    cases instr with
    | insert hnd => cases hstep; exact Or.inl hget
    | erase hnd alive => cases hstep; exact Or.inl hget
    | callback => cases hstep; exact Or.inl hget
    | checkNotify =>
      cases hstep
      by_cases hc : m.children = []
      · refine Or.inr (Or.inl ⟨hc, rfl, ?_, j, rest, rfl, hth⟩)
        show (if m.children = [] then wakeAll m.waiters else m.waiters).get? i = _
        rw [if_pos hc]
        show (m.waiters.map _).get? i = _
        rw [List.get?_map, hget]
        simp [hb]
      · refine Or.inl ?_
        show (if m.children = [] then wakeAll m.waiters else m.waiters).get? i = _
        rw [if_neg hc]
        exact hget
  | waiterCall j =>
    simp only [step] at hstep
    by_cases hij : j = i
    · subst hij
      rw [hget] at hstep
      simp [hb] at hstep
    · rcases hget2 : m.waiters.get? j with _ | w2 <;> rw [hget2] at hstep
      · exact absurd hstep (by simp)
      · dsimp only at hstep
        split at hstep
        · split at hstep <;>
            (cases hstep; exact Or.inl ((List.get?_set_ne _ _ hij).trans hget))
        · exact absurd hstep (by simp)
  | waiterWake j =>
    simp only [step] at hstep
    by_cases hij : j = i
    · subst hij
      rw [hget] at hstep
      simp [hb] at hstep
    · rcases hget2 : m.waiters.get? j with _ | w2 <;> rw [hget2] at hstep
      · exact absurd hstep (by simp)
      · dsimp only at hstep
        split at hstep
        · cases hstep; exact Or.inl ((List.get?_set_ne _ _ hij).trans hget)
        · exact absurd hstep (by simp)
  | waiterTimeout j =>
    simp only [step] at hstep
    by_cases hij : j = i
    · subst hij
      rw [hget] at hstep
      dsimp only at hstep
      split at hstep
      · rename_i hg
        cases hstep
        exact Or.inr (Or.inr ⟨hg.1, rfl,
          List.get?_set_eq_of_lt _ (length_of_get? hget)⟩)
      · exact absurd hstep (by simp)
    · rcases hget2 : m.waiters.get? j with _ | w2 <;> rw [hget2] at hstep
      · exact absurd hstep (by simp)
      · dsimp only at hstep
        split at hstep
        · cases hstep; exact Or.inl ((List.get?_set_ne _ _ hij).trans hget)
        · exact absurd hstep (by simp)

end AsioSup

namespace AsioSup

/-- A `wait` step (lock-and-check, wake, or timeout) of waiter `i`
never changes any other waiter; in particular it never notifies. -/
lemma waiter_step_preserves_others (m m2 : Machine) (i j : Nat)
    (hstep : step m (Label.waiterCall i) = some m2 ∨
      step m (Label.waiterWake i) = some m2 ∨
      step m (Label.waiterTimeout i) = some m2)
    (hne : j ≠ i) : m2.waiters.get? j = m.waiters.get? j := by
  have hij : i ≠ j := fun hx => hne hx.symm
  rcases hstep with hstep | hstep | hstep <;>
      simp only [step] at hstep <;>
      (rcases hget : m.waiters.get? i with _ | w <;> rw [hget] at hstep) <;>
      dsimp only at hstep
  · exact absurd hstep (by simp)
  · split at hstep
    · split at hstep <;> (cases hstep; exact List.get?_set_ne _ _ hij)
    · exact absurd hstep (by simp)
  · exact absurd hstep (by simp)
  · split at hstep
    · cases hstep; exact List.get?_set_ne _ _ hij
    · exact absurd hstep (by simp)
  · exact absurd hstep (by simp)
  · split at hstep
    · cases hstep; exact List.get?_set_ne _ _ hij
    · exact absurd hstep (by simp)

/-- A `runThread` step whose instruction is not the wrapper's final
`checkNotify` leaves every waiter untouched. -/
lemma thread_step_preserves_waiters (m m2 : Machine) (j : Nat) (instr : SInstr)
    (rest : List SInstr) (hstep : step m (Label.runThread j) = some m2)
    (hth : m.threads.get? j = some (instr :: rest))
    (hni : instr ≠ SInstr.checkNotify) : m2.waiters = m.waiters := by
  simp only [step] at hstep
  rw [hth] at hstep
  cases instr with
  | insert hnd => cases hstep; rfl
  | erase hnd alive => cases hstep; rfl
  | callback => cases hstep; rfl
  | checkNotify => exact absurd rfl hni

end AsioSup

namespace AsioSup

/-- Claim C5: if `children_` is empty at the moment `wait` takes the
lock, the call finishes with `true` in that very step — it never
blocks on the condition variable — for timed and untimed calls
alike. -/
theorem wait_empty_immediate (m : Machine) (i : Nat) (w : Waiter)
    (hc : m.children = []) (hget : m.waiters.get? i = some w)
    (hr : w.status = WStatus.ready) :
    step m (Label.waiterCall i) =
      some { m with waiters := m.waiters.set i { w with status := WStatus.done true } } := by
  simp only [step]
  rw [hget]
  dsimp only
  rw [if_pos hr, if_pos hc]

/-- Claim C2, amended: an indefinite (`maxWait` not-a-date-time)
`wait` that blocked can leave the blocked state only through a
notification, and notifications happen only at an instant when
`children_` is empty; upon waking, the call returns the emptiness of
`children_` at the moment it reacquires the lock — so it returns
`false` exactly when a new child was inserted between the notification
and the wake-up (the original claim's "never returns false" fails, see
the counterexample). -/
theorem wait_indefinite_wake_semantics :
    (∀ (m : Machine) (lab : Label) (m2 : Machine) (i : Nat) (w : Waiter),
      step m lab = some m2 → m.waiters.get? i = some w →
      w.status = WStatus.blocked → w.timed = false →
      (m2.waiters.get? i).map Waiter.status = some WStatus.woken →
      m.children = [] ∧ m2.children = []) ∧
    (∀ (m : Machine) (i : Nat) (w : Waiter),
      m.waiters.get? i = some w → w.status = WStatus.woken →
      step m (Label.waiterWake i) =
        some { m with waiters := m.waiters.set i { w with status := WStatus.done (decide (m.children = [])) } }) ∧
    (∀ (m : Machine) (lab : Label) (m2 : Machine) (i : Nat) (w : Waiter) (r : Bool),
      step m lab = some m2 → m.waiters.get? i = some w →
      w.status = WStatus.blocked → w.timed = false →
      (m2.waiters.get? i).map Waiter.status = some (WStatus.done r) → False) := by
  refine ⟨?_, ?_, ?_⟩
  · intro m lab m2 i w hstep hget hb ht hw2
    rcases step_blocked_cases m lab m2 i w hstep hget hb with hc | ⟨hc, hc2, -⟩ | ⟨htimed, -⟩
    · rw [hc] at hw2
      simp [hb] at hw2
    · exact ⟨hc, hc2.trans hc⟩
    · rw [ht] at htimed
      exact absurd htimed (by simp)
  · intro m i w hget hw
    simp only [step]
    rw [hget]
    dsimp only
    rw [if_pos hw]
  · intro m lab m2 i w r hstep hget hb ht hw2
    rcases step_blocked_cases m lab m2 i w hstep hget hb with hc | ⟨-, -, hc, -⟩ | ⟨htimed, -⟩
    · rw [hc] at hw2
      simp [hb] at hw2
    · rw [hc] at hw2
      simp at hw2
    · rw [ht] at htimed
      exact absurd htimed (by simp)

/-- Claim C2 counterexample: a concrete schedule on which an
indefinite `wait`, called while `children_` is non-empty (it holds
child 1 after the first step, when the waiter takes the lock), returns
`false`: child 1 exits and the reaper notifies, but child 2 is
inserted by a concurrent launch before the waiter reacquires the
lock, and the single non-looped `noChildrenSignal_.wait` returns
`children_.empty()`, which is `false`. -/
theorem wait_indefinite_cex :
    runSched cexMachine (List.take 1 cexSched) =
      some { children := [1]
             threads := [[],
               [SInstr.erase 1 true, SInstr.callback, SInstr.checkNotify],
               [SInstr.insert 2]]
             waiters := [{ timed := false, status := WStatus.ready }] } ∧
    runSched cexMachine cexSched =
      some { children := [2]
             threads := [[], [], []]
             waiters := [{ timed := false, status := WStatus.done false }] } :=
  ⟨rfl, rfl⟩

/-- Claim C3: a timed `wait` returns `true` exactly when the
condition variable was signalled within the window and the under-lock
re-check confirms `children_` is empty: the timeout path returns
`false`; the wake path returns precisely the emptiness of `children_`
at lock reacquisition; and a blocked waiter can only have been woken
by a notification, which occurs only at an instant when `children_`
is empty. -/
theorem wait_timed_semantics :
    (∀ (m : Machine) (i : Nat) (w : Waiter),
      m.waiters.get? i = some w → w.timed = true → w.status = WStatus.blocked →
      step m (Label.waiterTimeout i) =
        some { m with waiters := m.waiters.set i { w with status := WStatus.done false } }) ∧
    (∀ (m : Machine) (i : Nat) (w : Waiter),
      m.waiters.get? i = some w → w.status = WStatus.woken →
      step m (Label.waiterWake i) =
        some { m with waiters := m.waiters.set i { w with status := WStatus.done (decide (m.children = [])) } }) ∧
    (∀ (m : Machine) (lab : Label) (m2 : Machine) (i : Nat) (w : Waiter),
      step m lab = some m2 → m.waiters.get? i = some w →
      w.status = WStatus.blocked →
      (m2.waiters.get? i).map Waiter.status = some WStatus.woken →
      m.children = []) := by
  refine ⟨?_, ?_, ?_⟩
  · intro m i w hget ht hb
    simp only [step]
    rw [hget]
    dsimp only
    rw [if_pos ⟨ht, hb⟩]
  · intro m i w hget hw
    simp only [step]
    rw [hget]
    dsimp only
    rw [if_pos hw]
  · intro m lab m2 i w hstep hget hb hw2
    rcases step_blocked_cases m lab m2 i w hstep hget hb with hc | ⟨hc, -⟩ | ⟨-, -, hc⟩
    · rw [hc] at hw2
      simp [hb] at hw2
    · exact hc
    · rw [hc] at hw2
      simp at hw2

end AsioSup

namespace AsioSup

/-- Claim C7: the reaping wrapper notifies the quiescence condition
variable exactly when `children_` is empty at its post-callback check,
and no other operation of the supervisor notifies: the launch paths,
`terminateAll` and `hasRunningChildren` emit no `notifyAll` event, a
`wait` step never changes another waiter, and a thread step whose
instruction is not the wrapper's `checkNotify` leaves all waiters
untouched. -/
theorem notify_only_reap_on_empty
    (s : Impl) (hnd : Nat) (alive : Bool) (exitCode : Int) (onExit : Option Nat)
    (eff : Impl → Impl) (spec : ChildSpec) (cbs callbacks : ProcessCallbacks)
    (hnd2 executable cmd wrappedId : Nat) (args : List Nat)
    (runResult : Option Err) (termResult : Nat → Option Err) :
    (Event.notifyAll ∈ (wrapExitCallback s hnd alive exitCode onExit eff).2 ↔
      (postCallbackState s hnd alive onExit eff).children = []) ∧
    Event.notifyAll ∉ (runChild s spec hnd2 cbs runResult).2.2 ∧
    Event.notifyAll ∉ (runProgram s executable args callbacks hnd2 wrappedId runResult).2.2 ∧
    Event.notifyAll ∉ (runCommand s cmd callbacks hnd2 wrappedId runResult).2.2 ∧
    Event.notifyAll ∉ (terminateAll s termResult).2 ∧
    Event.notifyAll ∉ (hasRunningChildren s).2 ∧
    (∀ (m m2 : Machine) (i j : Nat),
      (step m (Label.waiterCall i) = some m2 ∨
       step m (Label.waiterWake i) = some m2 ∨
       step m (Label.waiterTimeout i) = some m2) →
      j ≠ i → m2.waiters.get? j = m.waiters.get? j) ∧
    (∀ (m m2 : Machine) (j : Nat) (instr : SInstr) (rest : List SInstr),
      step m (Label.runThread j) = some m2 →
      m.threads.get? j = some (instr :: rest) →
      instr ≠ SInstr.checkNotify → m2.waiters = m.waiters) := by
  refine ⟨?_, ?_, ?_, ?_, ?_, ?_, waiter_step_preserves_others, thread_step_preserves_waiters⟩
  · by_cases hc : (postCallbackState s hnd alive onExit eff).children = [] <;>
      cases onExit <;> simp [wrapExitCallback, hc]
  · cases runResult <;> simp [runChild]
  · cases runResult <;> simp [runProgram, runChild]
  · cases runResult <;> simp [runCommand, runChild]
  · intro hmem
    rcases List.mem_cons.mp hmem with hc | hc
    · exact Event.noConfusion hc
    · exact notifyAll_not_mem_termEvents _ _ hc
  · simp [hasRunningChildren]

end AsioSup

namespace AsioSup

/-- Witness for C1: concrete instance with the sole child exiting; the
erase event is at index 0 and the notification lands at index 3,
strictly after the callback at index 1. -/
theorem reap_order_witness :
    (wrapExitCallback ⟨[5]⟩ 5 true 0 (some 9) id).2.get? 0 =
      some (Event.eraseAttempt (some 5)) ∧
    (wrapExitCallback ⟨[5]⟩ 5 true 0 (some 9) id).2.get? 1 =
      some (Event.invokeOnExit 9 0) ∧
    1 < 3 :=
  ⟨(reap_order_erase_callback_notify ⟨[5]⟩ 5 0 9 id).1,
   (reap_order_erase_callback_notify ⟨[5]⟩ 5 0 9 id).2.1,
   (reap_order_erase_callback_notify ⟨[5]⟩ 5 0 9 id).2.2.1 3 rfl⟩

/-- Witness for the amended C2: with one child still registered at
lock reacquisition, the woken indefinite waiter returns `false`. -/
theorem wait_indefinite_wake_semantics_witness :
    step { children := [7], threads := [], waiters := [{ timed := false, status := WStatus.woken }] }
      (Label.waiterWake 0) =
      some { children := [7], threads := [],
             waiters := [{ timed := false, status := WStatus.done false }] } :=
  wait_indefinite_wake_semantics.2.1
    { children := [7], threads := [], waiters := [{ timed := false, status := WStatus.woken }] }
    0 { timed := false, status := WStatus.woken } rfl rfl

/-- Witness for C3: a timed waiter whose timeout fires while a child
is still registered returns `false`. -/
theorem wait_timed_semantics_witness :
    step { children := [4], threads := [], waiters := [{ timed := true, status := WStatus.blocked }] }
      (Label.waiterTimeout 0) =
      some { children := [4], threads := [],
             waiters := [{ timed := true, status := WStatus.done false }] } :=
  wait_timed_semantics.1
    { children := [4], threads := [], waiters := [{ timed := true, status := WStatus.blocked }] }
    0 { timed := true, status := WStatus.blocked } rfl rfl rfl

/-- Witness for C4: a failed launch returns the failure and leaves the
state untouched. -/
theorem launch_failure_no_insert_witness :
    runProgram ⟨[]⟩ 5 [7] { onStdout := some 1, onStderr := some 2, onExit := some 3 }
      4 9 (some ⟨13⟩) =
      (some ⟨13⟩, ⟨[]⟩,
       [Event.childRun (ChildSpec.program 5 [7])
         (wrapCallbacks { onStdout := some 1, onStderr := some 2, onExit := some 3 } 9)]) :=
  (launch_failure_no_insert ⟨[]⟩ 5 6 [7]
    { onStdout := some 1, onStderr := some 2, onExit := some 3 } 4 9 ⟨13⟩).1

/-- Witness for C5: `wait` called on an empty collection finishes with
`true` in the very step that takes the lock. -/
theorem wait_empty_immediate_witness :
    step { children := [], threads := [], waiters := [{ timed := true, status := WStatus.ready }] }
      (Label.waiterCall 0) =
      some { children := [], threads := [],
             waiters := [{ timed := true, status := WStatus.done true }] } :=
  wait_empty_immediate
    { children := [], threads := [], waiters := [{ timed := true, status := WStatus.ready }] }
    0 { timed := true, status := WStatus.ready } rfl rfl rfl

/-- Witness for C6: with child 4 failing to terminate, child 5 is
still issued a terminate request, and the failure is logged. -/
theorem terminateAll_best_effort_witness :
    Event.terminate 5 false ∈
      (terminateAll ⟨[4, 5]⟩ (fun n => if n = 4 then some ⟨9⟩ else none)).2 ∧
    Event.logError ⟨9⟩ ∈
      (terminateAll ⟨[4, 5]⟩ (fun n => if n = 4 then some ⟨9⟩ else none)).2 :=
  ⟨(terminateAll_best_effort ⟨[4, 5]⟩ (fun n => if n = 4 then some ⟨9⟩ else none)).2.1
      5 (by decide),
   (terminateAll_best_effort ⟨[4, 5]⟩ (fun n => if n = 4 then some ⟨9⟩ else none)).2.2
      4 ⟨9⟩ (by decide) rfl⟩

/-- Witness for C7: at a concrete reap of the last child, the
notification is present, and `terminateAll` never notifies. -/
theorem notify_only_reap_on_empty_witness :
    (Event.notifyAll ∈ (wrapExitCallback ⟨[5]⟩ 5 true 0 none id).2 ↔
      (postCallbackState ⟨[5]⟩ 5 true none id).children = []) ∧
    Event.notifyAll ∉ (terminateAll ⟨[2]⟩ (fun _ => none)).2 :=
  ⟨(notify_only_reap_on_empty ⟨[5]⟩ 5 true 0 none id (ChildSpec.command 0)
      ⟨none, none, none⟩ ⟨none, none, none⟩ 0 0 0 0 [] none (fun _ => none)).1,
   (notify_only_reap_on_empty ⟨[2]⟩ 5 true 0 none id (ChildSpec.command 0)
      ⟨none, none, none⟩ ⟨none, none, none⟩ 0 0 0 0 [] none (fun _ => none)).2.2.2.2.1⟩

/-- Witness for C8: a concrete launch hands the child the caller's
stdout/stderr slots unchanged. -/
theorem callbacks_passthrough_witness :
    (∃ cbs : ProcessCallbacks,
      (runProgram ⟨[]⟩ 1 [3] { onStdout := some 4, onStderr := some 5, onExit := some 6 }
        7 8 none).2.2.head? =
        some (Event.childRun (ChildSpec.program 1 [3]) cbs) ∧
      cbs.onStdout = some 4 ∧ cbs.onStderr = some 5 ∧ cbs.onExit = some 8) ∧
    (∃ cbs : ProcessCallbacks,
      (runCommand ⟨[]⟩ 2 { onStdout := some 4, onStderr := some 5, onExit := some 6 }
        7 8 none).2.2.head? =
        some (Event.childRun (ChildSpec.command 2) cbs) ∧
      cbs.onStdout = some 4 ∧ cbs.onStderr = some 5 ∧ cbs.onExit = some 8) :=
  callbacks_passthrough ⟨[]⟩ 1 2 [3] { onStdout := some 4, onStderr := some 5, onExit := some 6 } 7 8 none

/-- Witness for C9: a reap whose weak upgrade failed leaves the
collection untouched and still runs the callback and the check. -/
theorem reap_dead_weak_noop_witness :
    reapEraseState ⟨[3]⟩ 3 false = ⟨[3]⟩ ∧
    Event.invokeOnExit 1 0 ∈ (wrapExitCallback ⟨[3]⟩ 3 false 0 (some 1) id).2 :=
  ⟨(reap_dead_weak_noop ⟨[3]⟩ 3 0 1 id).1,
   (reap_dead_weak_noop ⟨[3]⟩ 3 0 1 id).2.2.2.1⟩

/-- Witness for C10: `terminateAll` on a concrete state returns the
state unchanged. -/
theorem terminateAll_frame_witness :
    (terminateAll ⟨[1, 2]⟩ (fun _ => some ⟨3⟩)).1 = ⟨[1, 2]⟩ :=
  (terminateAll_frame ⟨[1, 2]⟩ (fun _ => some ⟨3⟩)).1

end AsioSup
